import Mathlib

/-!
Verification of the `versionbump` utility.

Strings are modelled as `List Char`.  The version grammar
`^\d+\.\d+\.\d+(-dev\.\d+)?$` and the bump logic are embedded from
`src/versionbump/__init__.py`; the duplicate implementation from
`src/versionbump/versionbump/__main__.py` and the CLI orchestrator from
`src/versionbump/__main__.py` are embedded below as well.

Modelling notes, applied identically to the grammar and to every regex in
the code (both use the very same pattern text):
* `\d` is modelled as the ASCII digits `0`-`9` (Python's default Unicode
  digit classes are outside the model);
* the regex anchors are modelled as exact begin/end of string (Python's
  `$` would additionally tolerate one trailing newline, a corner applied
  equally to the code's guards and to the spec's grammar);
* Python's `int()` is modelled on ASCII strings without underscore
  separators: surrounding whitespace is stripped and an optional leading
  `+` is accepted (a leading `-` can never reach `int()` here, because the
  parsed text always lies before the first `-` of the version string).
-/

/-- ASCII decimal digit, the model of `\d`. -/
def isDigitChar (c : Char) : Bool := decide (48 ≤ c.toNat ∧ c.toNat ≤ 57)

/-- Whitespace stripped by Python's `str.strip()` / `int()`, ASCII fragment. -/
def isSpaceChar (c : Char) : Bool :=
  decide (c.toNat = 32 ∨ c.toNat = 9 ∨ c.toNat = 10 ∨ c.toNat = 13 ∨ c.toNat = 11 ∨ c.toNat = 12)

/-- Nonempty all-digit string: the language of `\d+`. -/
def isDigitsB (s : List Char) : Bool := !s.isEmpty && s.all isDigitChar

/-- Numeric value of a digit string (most significant digit first). -/
def digitsToNat (s : List Char) : Nat :=
  s.foldl (fun acc c => 10 * acc + (c.toNat - 48)) 0

/-- The ASCII digit character for `r` (meaningful for `r < 10`). -/
def digitChar (r : Nat) : Char := Char.ofNat (48 + r)

/-- Fuel-driven decimal rendering (structural recursion keeps it kernel-reducible). -/
def natToCharsAux : Nat → Nat → List Char
  | 0, _ => []
  | fuel + 1, n =>
    if n < 10 then [digitChar n]
    else natToCharsAux fuel (n / 10) ++ [digitChar (n % 10)]

/-- Decimal rendering of a natural number, no leading zeros: the model of
Python's `str`/f-string formatting of a nonnegative `int`. -/
def natToChars (n : Nat) : List Char := natToCharsAux (n + 1) n

/-- Strip leading and trailing whitespace, the model of `str.strip()`. -/
def stripChars (s : List Char) : List Char :=
  ((s.dropWhile isSpaceChar).reverse.dropWhile isSpaceChar).reverse

/-- Model of Python's `int(s)` for the ASCII fragment described in the header:
`none` models the `ValueError` raised on malformed input. -/
def pyInt (s : List Char) : Option Nat :=
  let t := stripChars s
  let t2 := if t.headD ' ' = '+' then t.tail else t
  if t2.isEmpty then none
  else if t2.all isDigitChar then some (digitsToNat t2) else none

/-- Model of Python's `str.split(sep)` for a one-character separator:
splits at every occurrence, keeping empty pieces, never returning `[]`. -/
def splitOnChar (sep : Char) : List Char → List (List Char)
  | [] => [[]]
  | c :: cs =>
    match splitOnChar sep cs with
    | [] => [[c]]
    | w :: ws => if c = sep then [] :: w :: ws else (c :: w) :: ws

/-- ASCII lowercasing of one character, the model of `str.lower()`. -/
def pyLower (c : Char) : Char :=
  if 65 ≤ c.toNat ∧ c.toNat ≤ 90 then Char.ofNat (c.toNat + 32) else c

/-- Matcher for the version regex `^(\d+)\.(\d+)\.(\d+)(?:-dev\.(\d+))?$`
(the pattern of `bump_prerelease` and, with the groups dropped, the
validation pattern `^\d+\.\d+\.\d+(-dev\.\d+)?$` used across the code):
returns the text of the three numeric groups and of the optional
prerelease group.  Maximal-munch `takeWhile` agrees with the regex here
because no digit can begin the literal that follows each `\d+`. -/
def parseVersion (v : List Char) :
    Option (List Char × List Char × List Char × Option (List Char)) :=
  let a := v.takeWhile isDigitChar
  let r1 := v.dropWhile isDigitChar
  if a.isEmpty then none else
  match r1 with
  | '.' :: r2 =>
    let b := r2.takeWhile isDigitChar
    let r3 := r2.dropWhile isDigitChar
    if b.isEmpty then none else
    match r3 with
    | '.' :: r4 =>
      let c := r4.takeWhile isDigitChar
      let r5 := r4.dropWhile isDigitChar
      if c.isEmpty then none else
      match r5 with
      | [] => some (a, b, c, none)
      | '-' :: 'd' :: 'e' :: 'v' :: '.' :: r6 =>
        let d := r6.takeWhile isDigitChar
        let r7 := r6.dropWhile isDigitChar
        if d.isEmpty then none else
        if r7.isEmpty then some (a, b, c, some d) else none
      | _ => none
    | _ => none
  | _ => none

/-- Declarative reading of the grammar `^\d+\.\d+\.\d+(-dev\.\d+)?$`:
`v` decomposes into digit groups `a`, `b`, `c` and an optional `-dev.`
counter `D`. -/
def VDecomp (v a b c : List Char) (D : Option (List Char)) : Prop :=
  isDigitsB a = true ∧ isDigitsB b = true ∧ isDigitsB c = true ∧
  match D with
  | none => v = a ++ '.' :: b ++ '.' :: c
  | some d =>
      isDigitsB d = true ∧
      v = a ++ '.' :: b ++ '.' :: (c ++ '-' :: 'd' :: 'e' :: 'v' :: '.' :: d)

/-- `v` matches the version grammar. -/
def GrammarMatch (v : List Char) : Prop := ∃ a b c D, VDecomp v a b c D

/-- Formatted release triple `f"{major}.{minor}.{patch}"`. -/
def fmtTriple (x y z : Nat) : List Char :=
  natToChars x ++ '.' :: natToChars y ++ '.' :: natToChars z

/-- Formatted prerelease version: groups `a.b.c` followed by `-dev.{n}`. -/
def fmtPre (a b c : List Char) (n : Nat) : List Char :=
  a ++ '.' :: b ++ '.' :: (c ++ '-' :: 'd' :: 'e' :: 'v' :: '.' :: natToChars n)

/-- `bump_version_logic` from `src/versionbump/__init__.py` (lines 45-57):
`base = version.split("-")[0]`, `major, minor, patch = map(int, base.split("."))`,
bump according to `level` (anything other than `"major"`/`"minor"` bumps the
patch component), and reformat.  `none` models the uncaught `ValueError`
when the unpacking or an `int()` conversion fails. -/
def bump_version_logic (version level : List Char) : Option (List Char) :=
  let base := (splitOnChar '-' version).headD []
  match splitOnChar '.' base with
  | [ms, ns, ps] =>
    match pyInt ms, pyInt ns, pyInt ps with
    | some major, some minor, some patch =>
      if level = "major".toList then some (fmtTriple (major + 1) 0 0)
      else if level = "minor".toList then some (fmtTriple major (minor + 1) 0)
      else some (fmtTriple major minor (patch + 1))
    | _, _, _ => none
  | _ => none

/-- `bump_version` from `src/versionbump/versionbump/__main__.py` (lines 26-38),
the near-duplicate of `bump_version_logic`; its Python body is textually
identical, so the embedding is the same term. -/
def bump_version (version level : List Char) : Option (List Char) :=
  let base := (splitOnChar '-' version).headD []
  match splitOnChar '.' base with
  | [ms, ns, ps] =>
    match pyInt ms, pyInt ns, pyInt ps with
    | some major, some minor, some patch =>
      if level = "major".toList then some (fmtTriple (major + 1) 0 0)
      else if level = "minor".toList then some (fmtTriple major (minor + 1) 0)
      else some (fmtTriple major minor (patch + 1))
    | _, _, _ => none
  | _ => none

/-- The next prerelease counter: `int(dev) + 1` if the `-dev.` group matched,
else `0`. -/
def devNext : Option (List Char) → Nat
  | none => 0
  | some d => digitsToNat d + 1

/-- `bump_prerelease` from `src/versionbump/__init__.py` (lines 59-65):
match the version against `^(\d+\.\d+\.\d+)(?:-dev\.(\d+))?$`; on failure
raise (`none`); otherwise emit `f"{base}-dev.{next_dev}"` where `base` is
the text of group 1. -/
def bump_prerelease (version : List Char) : Option (List Char) :=
  match parseVersion version with
  | none => none
  | some (a, b, c, dev) =>
    some ((a ++ '.' :: b ++ '.' :: c) ++ '-' :: 'd' :: 'e' :: 'v' :: '.' :: natToChars (devNext dev))

/-- Spec §4.1 `parse`, as realized by the code: the regex groups converted
with `int()` (digit groups, so plain digit values). -/
def parseVer (v : List Char) : Option (Nat × Nat × Nat × Option Nat) :=
  match parseVersion v with
  | none => none
  | some (a, b, c, D) => some (digitsToNat a, digitsToNat b, digitsToNat c, D.map digitsToNat)

/-- Spec §4.1 `format`, as realized by the code's f-strings:
`"{major}.{minor}.{patch}"` optionally followed by `"-dev.{n}"`. -/
def formatVer : Nat × Nat × Nat × Option Nat → List Char
  | (x, y, z, none) => fmtTriple x y z
  | (x, y, z, some n) => fmtTriple x y z ++ '-' :: 'd' :: 'e' :: 'v' :: '.' :: natToChars n

/-- A digit group in canonical form: no leading zero (either the single
digit `0` or a string starting with a nonzero digit). -/
def canonicalDigits (s : List Char) : Prop := s = ['0'] ∨ s.headD '0' ≠ '0'

/-! ## CLI orchestrator model

`main` from `src/versionbump/__main__.py` is modelled as a pure function
from the parsed arguments and the relevant on-disk/console state to the
ordered list of I/O events it performs and its exit outcome.  Printing to
stdout carries no state and is not recorded.  The model assumes the two
file writes succeed (the `WriteFailure` path is not needed by any claim),
and models TOML version values as strings or lists of strings (other TOML
scalar types would crash on use just like the `noField` case). -/

/-- The `level` positional argument; `argparse` `choices` already restricts
it to these three values. -/
inductive BumpLevel
  | patch
  | minor
  | major
deriving DecidableEq

/-- Parsed CLI arguments. -/
structure CliArgs where
  level : Option BumpLevel
  prerelease : Bool
  init : Option (List Char)
deriving DecidableEq

/-- The `project.version` value found in `pyproject.toml`. -/
inductive TomlVal
  | str (s : List Char)
  | strList (l : List (List Char))
  | noField
deriving DecidableEq

/-- The two on-disk stores: the metadata document (its version value; `none`
means the file is absent) and the constant file (its text; `none` means
absent). -/
structure Files where
  pyproject : Option TomlVal
  constantFile : Option (List Char)
deriving DecidableEq

/-- Process-external state of one invocation: the files and the text the
user will type at the confirmation prompt. -/
structure World where
  files : Files
  confirm : List Char
deriving DecidableEq

/-- The I/O events `main` can perform, in order. -/
inductive Ev
  | createDefaultToml
  | findVersionFile
  | readToml
  | prompt
  | writeToml (v : List Char)
  | writeVersionFile (v : List Char)
deriving DecidableEq

/-- Exit outcome: `exitOk` is exit code 0, `exitErr` is `sys.exit(1)`,
`crash` is an uncaught exception (also a nonzero exit). -/
inductive Outcome
  | exitOk
  | exitErr
  | crash
deriving DecidableEq

/-- `read_version_from_toml` from `src/versionbump/__init__.py` (lines 30-36):
`data["project"]["version"]`, taking the last element when the value is a
list.  `none` models the uncaught `KeyError`/`IndexError`. -/
def read_version_from_toml : TomlVal → Option (List Char)
  | TomlVal.str s => some s
  | TomlVal.strList l => l.getLast?
  | TomlVal.noField => none

/-- The string passed for each bump level. -/
def levelChars : BumpLevel → List Char
  | BumpLevel.patch => "patch".toList
  | BumpLevel.minor => "minor".toList
  | BumpLevel.major => "major".toList

/-- Python truthiness of `args.init` (`bool("")` is `False`). -/
def initTruthy (a : CliArgs) : Bool :=
  match a.init with
  | some s => !s.isEmpty
  | none => false

/-- `sum(set_args)` from line 26: how many of the three operation selectors
are truthy. -/
def selectorCount (a : CliArgs) : Nat :=
  (if a.level.isSome then 1 else 0) + (if a.prerelease then 1 else 0) +
    (if initTruthy a then 1 else 0)

/-- `input(...).strip().lower()` from line 68. -/
def normConfirm (s : List Char) : List Char := (stripChars s).map pyLower

/-- The line `write_version_file` puts into the constant file
(`src/versionbump/__init__.py` lines 25-28). -/
def assignLine (v : List Char) : List Char :=
  "__version__ = \"".toList ++ v ++ "\"\n".toList

/-- Effect of one event on the files. -/
def applyEv (f : Files) : Ev → Files
  | Ev.createDefaultToml => { f with pyproject := some (TomlVal.str ("0.1.0".toList)) }
  | Ev.writeToml v => { f with pyproject := some (TomlVal.str v) }
  | Ev.writeVersionFile v => { f with constantFile := some (assignLine v) }
  | _ => f

/-- Effect of an event trace on the files. -/
def applyEvs (f : Files) (es : List Ev) : Files := es.foldl applyEv f

/-- The trace tail from the confirmation prompt on (lines 66-71 and 73-75):
prompt, then write both files only on the exact answer `y`. -/
def confirmTail (confirm nv : List Char) : List Ev :=
  if normConfirm confirm = "y".toList then
    [Ev.prompt, Ev.writeToml nv, Ev.writeVersionFile nv]
  else [Ev.prompt]

/-- `main` from `src/versionbump/__main__.py` (lines 15-79). -/
def mainRun (args : CliArgs) (w : World) : List Ev × Outcome :=
  if selectorCount args > 1 then ([], Outcome.exitErr)
  else
    let missing := w.files.pyproject.isNone
    let setup : List Ev := (if missing then [Ev.createDefaultToml] else []) ++ [Ev.findVersionFile]
    let stored : Option TomlVal :=
      if missing then some (TomlVal.str ("0.1.0".toList)) else w.files.pyproject
    if initTruthy args then
      let iv := (args.init).getD []
      if (parseVersion iv).isNone then (setup, Outcome.exitErr)
      else (setup ++ [Ev.writeToml iv, Ev.writeVersionFile iv], Outcome.exitOk)
    else
      match stored with
      | none => (setup ++ [Ev.readToml], Outcome.crash)
      | some tv =>
        match read_version_from_toml tv with
        | none => (setup ++ [Ev.readToml], Outcome.crash)
        | some old =>
          if args.prerelease then
            if (parseVersion old).isNone then (setup ++ [Ev.readToml], Outcome.exitErr)
            else
              match bump_prerelease old with
              | none => (setup ++ [Ev.readToml], Outcome.exitErr)
              | some nv => (setup ++ [Ev.readToml] ++ confirmTail w.confirm nv, Outcome.exitOk)
          else
            match bump_version_logic old (levelChars ((args.level).getD BumpLevel.patch)) with
            | none => (setup ++ [Ev.readToml], Outcome.crash)
            | some nv => (setup ++ [Ev.readToml] ++ confirmTail w.confirm nv, Outcome.exitOk)

/-- No event in the trace writes a version to either store. -/
def noVersionWrites : List Ev → Bool
  | [] => true
  | Ev.writeToml _ :: _ => false
  | Ev.writeVersionFile _ :: _ => false
  | _ :: es => noVersionWrites es

/-- Every version write in the trace is preceded by the confirmation prompt. -/
def noWritesBeforePrompt : List Ev → Bool
  | [] => true
  | Ev.prompt :: _ => true
  | Ev.writeToml _ :: _ => false
  | Ev.writeVersionFile _ :: _ => false
  | _ :: es => noWritesBeforePrompt es

/-! ## Character facts -/

theorem char_toNat_inj {c d : Char} (h : c.toNat = d.toNat) : c = d :=
  Char.ext (UInt32.ext h)

theorem isDigitChar_bounds {c : Char} (h : isDigitChar c = true) :
    48 ≤ c.toNat ∧ c.toNat ≤ 57 := by
  simpa [isDigitChar] using h

theorem digit_not_space {c : Char} (h : isDigitChar c = true) : isSpaceChar c = false := by
  obtain ⟨h1, h2⟩ := isDigitChar_bounds h
  simp only [isSpaceChar, decide_eq_false_iff_not]
  omega

theorem digit_ne_dot {c : Char} (h : isDigitChar c = true) : c ≠ '.' := by
  obtain ⟨h1, h2⟩ := isDigitChar_bounds h
  intro he
  subst he
  revert h1
  decide

theorem digit_ne_dash {c : Char} (h : isDigitChar c = true) : c ≠ '-' := by
  obtain ⟨h1, h2⟩ := isDigitChar_bounds h
  intro he
  subst he
  revert h1
  decide

theorem digit_ne_plus {c : Char} (h : isDigitChar c = true) : c ≠ '+' := by
  obtain ⟨h1, h2⟩ := isDigitChar_bounds h
  intro he
  subst he
  revert h1
  decide

theorem digit_char_cases (c : Char) (h : isDigitChar c = true) :
    c = '0' ∨ c = '1' ∨ c = '2' ∨ c = '3' ∨ c = '4' ∨ c = '5' ∨ c = '6' ∨ c = '7' ∨ c = '8' ∨
      c = '9' := by
  obtain ⟨h1, h2⟩ := isDigitChar_bounds h
  set m := c.toNat with hm
  interval_cases m <;>
    [ exact Or.inl (char_toNat_inj (by rw [← hm]; decide));
      exact Or.inr (Or.inl (char_toNat_inj (by rw [← hm]; decide)));
      exact Or.inr (Or.inr (Or.inl (char_toNat_inj (by rw [← hm]; decide))));
      exact Or.inr (Or.inr (Or.inr (Or.inl (char_toNat_inj (by rw [← hm]; decide)))));
      exact Or.inr (Or.inr (Or.inr (Or.inr (Or.inl (char_toNat_inj (by rw [← hm]; decide))))));
      exact Or.inr (Or.inr (Or.inr (Or.inr (Or.inr (Or.inl (char_toNat_inj (by rw [← hm]; decide)))))));
      exact Or.inr (Or.inr (Or.inr (Or.inr (Or.inr (Or.inr (Or.inl (char_toNat_inj (by rw [← hm]; decide))))))));
      exact Or.inr (Or.inr (Or.inr (Or.inr (Or.inr (Or.inr (Or.inr (Or.inl (char_toNat_inj (by rw [← hm]; decide)))))))));
      exact Or.inr (Or.inr (Or.inr (Or.inr (Or.inr (Or.inr (Or.inr (Or.inr (Or.inl (char_toNat_inj (by rw [← hm]; decide))))))))));
      exact Or.inr (Or.inr (Or.inr (Or.inr (Or.inr (Or.inr (Or.inr (Or.inr (Or.inr (char_toNat_inj (by rw [← hm]; decide))))))))))]

theorem digitChar_digitVal {c : Char} (h : isDigitChar c = true) :
    digitChar (c.toNat - 48) = c := by
  rcases digit_char_cases c h with h | h | h | h | h | h | h | h | h | h <;> subst h <;> decide

theorem digitChar_isDigit {r : Nat} (h : r < 10) : isDigitChar (digitChar r) = true := by
  interval_cases r <;> decide

/-! ## takeWhile / dropWhile facts -/

theorem takeWhile_all_true (p : Char → Bool) :
    ∀ l : List Char, (l.takeWhile p).all p = true := by
  intro l
  induction l with
  | nil => rfl
  | cons a t ih =>
    rw [List.takeWhile_cons]
    by_cases h : p a = true
    · simp [h, ih]
    · simp [h]

theorem takeWhile_of_all {p : Char → Bool} {l : List Char}
    (h : ∀ x ∈ l, p x = true) : l.takeWhile p = l := by
  induction l with
  | nil => rfl
  | cons a t ih =>
    rw [List.takeWhile_cons, if_pos (h a (by simp))]
    rw [ih fun x hx => h x (by simp [hx])]

theorem dropWhile_of_all {p : Char → Bool} {l : List Char}
    (h : ∀ x ∈ l, p x = true) : l.dropWhile p = [] := by
  induction l with
  | nil => rfl
  | cons a t ih =>
    rw [List.dropWhile_cons, if_pos (h a (by simp))]
    exact ih fun x hx => h x (by simp [hx])

theorem dropWhile_of_all_not {p : Char → Bool} {l : List Char}
    (h : ∀ x ∈ l, p x = false) : l.dropWhile p = l := by
  cases l with
  | nil => rfl
  | cons a t =>
    rw [List.dropWhile_cons, if_neg]
    simp [h a (by simp)]

theorem takeWhile_append_stop {p : Char → Bool} {l : List Char} {c : Char} (r : List Char)
    (h : ∀ x ∈ l, p x = true) (hc : p c = false) : ((l ++ c :: r).takeWhile p) = l := by
  induction l with
  | nil => simp [List.takeWhile_cons, hc]
  | cons a t ih =>
    rw [List.cons_append, List.takeWhile_cons, if_pos (h a (by simp))]
    rw [ih fun x hx => h x (by simp [hx])]

theorem dropWhile_append_stop {p : Char → Bool} {l : List Char} {c : Char} (r : List Char)
    (h : ∀ x ∈ l, p x = true) (hc : p c = false) : ((l ++ c :: r).dropWhile p) = c :: r := by
  induction l with
  | nil => simp [List.dropWhile_cons, hc]
  | cons a t ih =>
    rw [List.cons_append, List.dropWhile_cons, if_pos (h a (by simp))]
    exact ih fun x hx => h x (by simp [hx])

/-! ## splitOnChar facts -/

theorem splitOnChar_ne_nil (sep : Char) : ∀ l : List Char, splitOnChar sep l ≠ [] := by
  intro l
  induction l with
  | nil => simp [splitOnChar]
  | cons c cs ih =>
    rw [splitOnChar]
    cases h : splitOnChar sep cs with
    | nil => simp
    | cons w ws =>
      by_cases hc : c = sep <;> simp [hc]

theorem splitOnChar_of_no_sep {sep : Char} {l : List Char}
    (h : ∀ x ∈ l, x ≠ sep) : splitOnChar sep l = [l] := by
  induction l with
  | nil => rfl
  | cons c cs ih =>
    rw [splitOnChar, ih fun x hx => h x (by simp [hx])]
    simp only [if_neg (h c (by simp))]

theorem splitOnChar_append {sep : Char} {l : List Char} (r : List Char)
    (h : ∀ x ∈ l, x ≠ sep) : splitOnChar sep (l ++ sep :: r) = l :: splitOnChar sep r := by
  induction l with
  | nil =>
    rw [List.nil_append, splitOnChar]
    cases hs : splitOnChar sep r with
    | nil => exact absurd hs (splitOnChar_ne_nil sep r)
    | cons w ws => simp
  | cons c cs ih =>
    rw [List.cons_append, splitOnChar, ih fun x hx => h x (by simp [hx])]
    simp only [if_neg (h c (by simp))]

/-! ## pyInt on digit strings -/

theorem isDigitsB_iff {s : List Char} :
    isDigitsB s = true ↔ s ≠ [] ∧ ∀ x ∈ s, isDigitChar x = true := by
  simp [isDigitsB, List.all_eq_true, List.isEmpty_iff]

theorem pyInt_digits {ds : List Char} (h : isDigitsB ds = true) :
    pyInt ds = some (digitsToNat ds) := by
  obtain ⟨hne, hall⟩ := isDigitsB_iff.mp h
  have hstrip : stripChars ds = ds := by
    unfold stripChars
    rw [dropWhile_of_all_not fun x hx => digit_not_space (hall x hx)]
    rw [dropWhile_of_all_not fun x hx => digit_not_space (hall x (List.mem_reverse.mp hx))]
    exact List.reverse_reverse ds
  simp only [pyInt, hstrip]
  cases ds with
  | nil => exact absurd rfl hne
  | cons c t =>
    rw [List.headD_cons, if_neg (digit_ne_plus (hall c (by simp)))]
    rw [if_neg (by simp), if_pos (by simpa [List.all_eq_true] using hall)]

/-! ## Decimal rendering facts -/

theorem natToCharsAux_congr :
    ∀ n f g, n < f → n < g → natToCharsAux f n = natToCharsAux g n := by
  intro n
  induction n using Nat.strong_induction_on with
  | h n ih =>
    intro f g hf hg
    cases f with
    | zero => omega
    | succ f' =>
      cases g with
      | zero => omega
      | succ g' =>
        simp only [natToCharsAux]
        by_cases h10 : n < 10
        · simp [h10]
        · have hdiv : n / 10 < n := Nat.div_lt_self (by omega) (by omega)
          simp only [if_neg h10]
          rw [ih (n / 10) hdiv f' (n / 10 + 1) (by omega) (by omega)]
          rw [ih (n / 10) hdiv g' (n / 10 + 1) (by omega) (by omega)]

theorem natToChars_eq (n : Nat) :
    natToChars n =
      if n < 10 then [digitChar n] else natToChars (n / 10) ++ [digitChar (n % 10)] := by
  unfold natToChars
  rw [natToCharsAux]
  by_cases h10 : n < 10
  · simp [h10]
  · simp only [if_neg h10]
    have hdiv : n / 10 < n := Nat.div_lt_self (by omega) (by omega)
    rw [natToCharsAux_congr (n / 10) n (n / 10 + 1) hdiv (by omega)]

theorem natToChars_digits (n : Nat) : isDigitsB (natToChars n) = true := by
  induction n using Nat.strong_induction_on with
  | h n ih =>
    rw [natToChars_eq]
    by_cases h10 : n < 10
    · rw [if_pos h10]
      simp [isDigitsB, digitChar_isDigit h10]
    · rw [if_neg h10]
      have hrec := ih (n / 10) (Nat.div_lt_self (by omega) (by omega))
      rw [isDigitsB_iff] at hrec ⊢
      refine ⟨by simp, ?_⟩
      intro x hx
      rcases List.mem_append.mp hx with hx | hx
      · exact hrec.2 x hx
      · have : x = digitChar (n % 10) := by simpa using hx
        subst this
        exact digitChar_isDigit (by omega)

theorem digitsToNat_append_digit (ds : List Char) (c : Char) :
    digitsToNat (ds ++ [c]) = 10 * digitsToNat ds + (c.toNat - 48) := by
  simp [digitsToNat, List.foldl_append]

theorem foldl_digits_pos (t : List Char) :
    ∀ acc : Nat, 0 < acc → 0 < t.foldl (fun acc c => 10 * acc + (c.toNat - 48)) acc := by
  induction t with
  | nil => intro acc h; simpa using h
  | cons c t ih =>
    intro acc h
    simp only [List.foldl_cons]
    exact ih _ (by omega)

theorem digitsToNat_pos {ds : List Char} (hall : ∀ x ∈ ds, isDigitChar x = true)
    (hne : ds ≠ []) (hd : ds.headD '0' ≠ '0') : 0 < digitsToNat ds := by
  cases ds with
  | nil => exact absurd rfl hne
  | cons c t =>
    have hc : isDigitChar c = true := hall c (by simp)
    obtain ⟨h48, h57⟩ := isDigitChar_bounds hc
    have : c.toNat ≠ 48 := by
      intro heq
      have hzero : c = '0' := char_toNat_inj (by rw [heq]; decide)
      simp only [List.headD_cons] at hd
      exact hd hzero
    simp only [digitsToNat, List.foldl_cons]
    exact foldl_digits_pos t _ (by omega)

theorem natToChars_mul_add {m r : Nat} (hm : m ≠ 0) (hr : r < 10) :
    natToChars (10 * m + r) = natToChars m ++ [digitChar r] := by
  rw [natToChars_eq, if_neg (by omega)]
  have hdiv : (10 * m + r) / 10 = m := by omega
  have hmod : (10 * m + r) % 10 = r := by omega
  rw [hdiv, hmod]

theorem natToChars_digitsToNat (ds : List Char) :
    (∀ x ∈ ds, isDigitChar x = true) → ds ≠ [] → (ds = ['0'] ∨ ds.headD '0' ≠ '0') →
    natToChars (digitsToNat ds) = ds := by
  induction ds using List.reverseRecOn with
  | nil => intro _ h _; exact absurd rfl h
  | append_singleton es c ih =>
    intro hall _ hcanon
    have hc : isDigitChar c = true := hall c (by simp)
    obtain ⟨h48, h57⟩ := isDigitChar_bounds hc
    cases es with
    | nil =>
      have h1 : digitsToNat [c] = c.toNat - 48 := by simp [digitsToNat]
      rw [List.nil_append, h1, natToChars_eq, if_pos (by omega), digitChar_digitVal hc]
    | cons e es' =>
      have hd : e ≠ '0' := by
        rcases hcanon with h | h
        · exfalso
          have hlen := congrArg List.length h
          simp only [List.length_cons, List.length_append, List.length_singleton] at hlen
          omega
        · simpa using h
      have hallp : ∀ x ∈ e :: es', isDigitChar x = true := fun x hx =>
        hall x (by simp at hx ⊢; tauto)
      have hpos : 0 < digitsToNat (e :: es') :=
        digitsToNat_pos hallp (by simp) (by simpa using hd)
      rw [digitsToNat_append_digit, natToChars_mul_add (by omega) (by omega)]
      rw [ih hallp (by simp) (Or.inr (by simpa using hd)), digitChar_digitVal hc]

/-! ## Parser correctness: `parseVersion` recognises exactly the grammar -/

theorem parseVersion_complete {v a b c : List Char} {D : Option (List Char)}
    (h : VDecomp v a b c D) : parseVersion v = some (a, b, c, D) := by
  obtain ⟨ha, hb, hc, hrest⟩ := h
  obtain ⟨hane, haall⟩ := isDigitsB_iff.mp ha
  obtain ⟨hbne, hball⟩ := isDigitsB_iff.mp hb
  obtain ⟨hcne, hcall⟩ := isDigitsB_iff.mp hc
  have haE : a.isEmpty = false := by simpa [List.isEmpty_iff] using hane
  have hbE : b.isEmpty = false := by simpa [List.isEmpty_iff] using hbne
  have hcE : c.isEmpty = false := by simpa [List.isEmpty_iff] using hcne
  cases D with
  | none =>
    rw [show v = a ++ '.' :: (b ++ '.' :: c) by simpa using hrest]
    simp only [parseVersion]
    rw [takeWhile_append_stop _ haall (by decide), dropWhile_append_stop _ haall (by decide)]
    simp only [haE, Bool.false_eq_true, if_false]
    rw [takeWhile_append_stop _ hball (by decide), dropWhile_append_stop _ hball (by decide)]
    simp only [hbE, Bool.false_eq_true, if_false]
    rw [takeWhile_of_all hcall, dropWhile_of_all hcall]
    simp [hcE]
  | some d =>
    obtain ⟨hd, hveq⟩ := hrest
    obtain ⟨hdne, hdall⟩ := isDigitsB_iff.mp hd
    have hdE : d.isEmpty = false := by simpa [List.isEmpty_iff] using hdne
    rw [show v = a ++ '.' :: (b ++ '.' :: (c ++ '-' :: 'd' :: 'e' :: 'v' :: '.' :: d)) by
      simpa using hveq]
    simp only [parseVersion]
    rw [takeWhile_append_stop _ haall (by decide), dropWhile_append_stop _ haall (by decide)]
    simp only [haE, Bool.false_eq_true, if_false]
    rw [takeWhile_append_stop _ hball (by decide), dropWhile_append_stop _ hball (by decide)]
    simp only [hbE, Bool.false_eq_true, if_false]
    rw [takeWhile_append_stop _ hcall (by decide), dropWhile_append_stop _ hcall (by decide)]
    simp only [hcE, Bool.false_eq_true, if_false]
    rw [takeWhile_of_all hdall, dropWhile_of_all hdall]
    simp [hdE]

theorem parseVersion_sound {v A B C : List Char} {D : Option (List Char)}
    (h : parseVersion v = some (A, B, C, D)) : VDecomp v A B C D := by
  have hv : v.takeWhile isDigitChar ++ v.dropWhile isDigitChar = v :=
    List.takeWhile_append_dropWhile isDigitChar v
  simp only [parseVersion] at h
  split at h
  · exact absurd h (by simp)
  · next hAne =>
    split at h
    · next r2 heq1 =>
      have hv2 : r2.takeWhile isDigitChar ++ r2.dropWhile isDigitChar = r2 :=
        List.takeWhile_append_dropWhile isDigitChar r2
      split at h
      · exact absurd h (by simp)
      · next hBne =>
        split at h
        · next r4 heq2 =>
          have hv4 : r4.takeWhile isDigitChar ++ r4.dropWhile isDigitChar = r4 :=
            List.takeWhile_append_dropWhile isDigitChar r4
          split at h
          · exact absurd h (by simp)
          · next hCne =>
            split at h
            · next heq3 =>
              injection h with h
              injection h with h1 h2
              injection h2 with h2 h3
              injection h3 with h3 h4
              subst h1
              subst h2
              subst h3
              subst h4
              refine ⟨?_, ?_, ?_, ?_⟩
              · exact isDigitsB_iff.mpr ⟨by simpa [List.isEmpty_iff] using hAne,
                  fun x hx => by
                    have := takeWhile_all_true isDigitChar v
                    rw [List.all_eq_true] at this
                    exact this x hx⟩
              · exact isDigitsB_iff.mpr ⟨by simpa [List.isEmpty_iff] using hBne,
                  fun x hx => by
                    have := takeWhile_all_true isDigitChar r2
                    rw [List.all_eq_true] at this
                    exact this x hx⟩
              · exact isDigitsB_iff.mpr ⟨by simpa [List.isEmpty_iff] using hCne,
                  fun x hx => by
                    have := takeWhile_all_true isDigitChar r4
                    rw [List.all_eq_true] at this
                    exact this x hx⟩
              · have hr4 : List.takeWhile isDigitChar r4 = r4 := by
                  conv_rhs => rw [← hv4, heq3]
                  rw [List.append_nil]
                have hr2 : r2 =
                    List.takeWhile isDigitChar r2 ++ '.' :: List.takeWhile isDigitChar r4 := by
                  conv_lhs => rw [← hv2]
                  rw [heq2, hr4]
                show v = _
                conv_lhs => rw [← hv]
                rw [heq1]
                conv_lhs => rw [hr2]
                simp [List.append_assoc]
            · next r6 heq3 =>
              split at h
              · exact absurd h (by simp)
              · next hDne =>
                split at h
                · next hr7 =>
                  injection h with h
                  injection h with h1 h2
                  injection h2 with h2 h3
                  injection h3 with h3 h4
                  subst h1
                  subst h2
                  subst h3
                  subst h4
                  have hv6 : r6.takeWhile isDigitChar ++ r6.dropWhile isDigitChar = r6 :=
                    List.takeWhile_append_dropWhile isDigitChar r6
                  have hr6 : List.takeWhile isDigitChar r6 = r6 := by
                    rw [List.isEmpty_iff] at hr7
                    conv_rhs => rw [← hv6, hr7]
                    rw [List.append_nil]
                  refine ⟨?_, ?_, ?_, ?_, ?_⟩
                  · exact isDigitsB_iff.mpr ⟨by simpa [List.isEmpty_iff] using hAne,
                      fun x hx => by
                        have := takeWhile_all_true isDigitChar v
                        rw [List.all_eq_true] at this
                        exact this x hx⟩
                  · exact isDigitsB_iff.mpr ⟨by simpa [List.isEmpty_iff] using hBne,
                      fun x hx => by
                        have := takeWhile_all_true isDigitChar r2
                        rw [List.all_eq_true] at this
                        exact this x hx⟩
                  · exact isDigitsB_iff.mpr ⟨by simpa [List.isEmpty_iff] using hCne,
                      fun x hx => by
                        have := takeWhile_all_true isDigitChar r4
                        rw [List.all_eq_true] at this
                        exact this x hx⟩
                  · exact isDigitsB_iff.mpr ⟨by simpa [List.isEmpty_iff] using hDne,
                      fun x hx => by
                        have := takeWhile_all_true isDigitChar r6
                        rw [List.all_eq_true] at this
                        exact this x hx⟩
                  · have hr4d : r4 = List.takeWhile isDigitChar r4 ++
                        '-' :: 'd' :: 'e' :: 'v' :: '.' :: List.takeWhile isDigitChar r6 := by
                      conv_lhs => rw [← hv4]
                      rw [heq3, hr6]
                    have hr2d : r2 = List.takeWhile isDigitChar r2 ++ '.' ::
                        (List.takeWhile isDigitChar r4 ++
                          '-' :: 'd' :: 'e' :: 'v' :: '.' :: List.takeWhile isDigitChar r6) := by
                      conv_lhs => rw [← hv2]
                      rw [heq2, ← hr4d]
                    show v = _
                    conv_lhs => rw [← hv]
                    rw [heq1]
                    conv_lhs => rw [hr2d]
                    simp [List.append_assoc]
                · exact absurd h (by simp)
            · exact absurd h (by simp)
        · exact absurd h (by simp)
    · exact absurd h (by simp)

/-! ## Behaviour of the bump functions on grammar-matching input -/

theorem mem_triple {x : Char} {a b c : List Char}
    (hx : x ∈ a ++ '.' :: b ++ '.' :: c) : x ∈ a ∨ x ∈ b ∨ x ∈ c ∨ x = '.' := by
  simp only [List.mem_append, List.mem_cons] at hx
  tauto

theorem splitDash_of_decomp {v a b c : List Char} {D : Option (List Char)}
    (h : VDecomp v a b c D) : (splitOnChar '-' v).headD [] = a ++ '.' :: b ++ '.' :: c := by
  obtain ⟨ha, hb, hc, hrest⟩ := h
  obtain ⟨-, haall⟩ := isDigitsB_iff.mp ha
  obtain ⟨-, hball⟩ := isDigitsB_iff.mp hb
  obtain ⟨-, hcall⟩ := isDigitsB_iff.mp hc
  have htriple : ∀ x ∈ a ++ '.' :: b ++ '.' :: c, x ≠ '-' := by
    intro x hx
    rcases mem_triple hx with hx | hx | hx | hx
    · exact digit_ne_dash (haall x hx)
    · exact digit_ne_dash (hball x hx)
    · exact digit_ne_dash (hcall x hx)
    · subst hx; decide
  cases D with
  | none =>
    rw [hrest, splitOnChar_of_no_sep htriple]
    rfl
  | some d =>
    obtain ⟨hd, hveq⟩ := hrest
    obtain ⟨-, hdall⟩ := isDigitsB_iff.mp hd
    have hv' : v = (a ++ '.' :: b ++ '.' :: c) ++ '-' :: 'd' :: 'e' :: 'v' :: '.' :: d := by
      rw [hveq]
      simp [List.append_assoc]
    rw [hv', splitOnChar_append _ htriple]
    rfl

theorem splitDot_triple {a b c : List Char} (ha : isDigitsB a = true)
    (hb : isDigitsB b = true) (hc : isDigitsB c = true) :
    splitOnChar '.' (a ++ '.' :: b ++ '.' :: c) = [a, b, c] := by
  obtain ⟨-, haall⟩ := isDigitsB_iff.mp ha
  obtain ⟨-, hball⟩ := isDigitsB_iff.mp hb
  obtain ⟨-, hcall⟩ := isDigitsB_iff.mp hc
  have h1 : (a ++ '.' :: b ++ '.' :: c : List Char) = a ++ '.' :: (b ++ '.' :: c) := by
    simp [List.append_assoc]
  rw [h1, splitOnChar_append _ fun x hx => digit_ne_dot (haall x hx)]
  rw [splitOnChar_append _ fun x hx => digit_ne_dot (hball x hx)]
  rw [splitOnChar_of_no_sep fun x hx => digit_ne_dot (hcall x hx)]

theorem bump_version_logic_of_decomp {v a b c : List Char} {D : Option (List Char)}
    (h : VDecomp v a b c D) (l : List Char) :
    bump_version_logic v l = some (
      if l = "major".toList then fmtTriple (digitsToNat a + 1) 0 0
      else if l = "minor".toList then fmtTriple (digitsToNat a) (digitsToNat b + 1) 0
      else fmtTriple (digitsToNat a) (digitsToNat b) (digitsToNat c + 1)) := by
  have ha := h.1
  have hb := h.2.1
  have hc := h.2.2.1
  simp only [bump_version_logic, splitDash_of_decomp h,
    splitDot_triple ha hb hc, pyInt_digits ha, pyInt_digits hb, pyInt_digits hc]
  split_ifs <;> rfl

theorem bump_prerelease_of_decomp {v a b c : List Char} {D : Option (List Char)}
    (h : VDecomp v a b c D) :
    bump_prerelease v = some (fmtPre a b c (devNext D)) := by
  simp only [bump_prerelease, parseVersion_complete h, fmtPre]
  simp [List.append_assoc]

theorem fmtTriple_decomp (x y z : Nat) :
    VDecomp (fmtTriple x y z) (natToChars x) (natToChars y) (natToChars z) none :=
  ⟨natToChars_digits x, natToChars_digits y, natToChars_digits z, rfl⟩

theorem fmtPre_decomp {a b c : List Char} (n : Nat) (ha : isDigitsB a = true)
    (hb : isDigitsB b = true) (hc : isDigitsB c = true) :
    VDecomp (fmtPre a b c n) a b c (some (natToChars n)) :=
  ⟨ha, hb, hc, natToChars_digits n, rfl⟩

/-! ## Claim theorems on the pure bump logic -/

/-- C1: for every version string matching the grammar, `bump_version_logic`
with level `"major"` returns `(major+1).0.0`, with `"minor"` returns
`major.(minor+1).0`, with `"patch"` returns `major.minor.(patch+1)`, and in
every case the result carries no prerelease suffix (any `-dev.N` is
discarded before bumping). -/
theorem bump_release_levels_correct (v a b c : List Char) (D : Option (List Char))
    (h : VDecomp v a b c D) :
    bump_version_logic v ("major".toList) = some (fmtTriple (digitsToNat a + 1) 0 0) ∧
    bump_version_logic v ("minor".toList) =
      some (fmtTriple (digitsToNat a) (digitsToNat b + 1) 0) ∧
    bump_version_logic v ("patch".toList) =
      some (fmtTriple (digitsToNat a) (digitsToNat b) (digitsToNat c + 1)) ∧
    ∀ l r, bump_version_logic v l = some r → ∃ x y z, parseVersion r = some (x, y, z, none) := by
  refine ⟨?_, ?_, ?_, ?_⟩
  · rw [bump_version_logic_of_decomp h]
    rfl
  · rw [bump_version_logic_of_decomp h]
    rfl
  · rw [bump_version_logic_of_decomp h]
    rfl
  · intro l r hr
    rw [bump_version_logic_of_decomp h] at hr
    injection hr with hr
    subst hr
    split_ifs <;> exact ⟨_, _, _, parseVersion_complete (fmtTriple_decomp _ _ _)⟩

/-- Witness for C1 at the concrete inputs of the spec's examples. -/
theorem bump_release_levels_correct_witness :
    VDecomp ("1.2.3".toList) ("1".toList) ("2".toList) ("3".toList) none ∧
    bump_version_logic ("1.2.3".toList) ("major".toList) = some ("2.0.0".toList) ∧
    bump_version_logic ("1.2.3".toList) ("minor".toList) = some ("1.3.0".toList) := by
  have hd : VDecomp ("1.2.3".toList) ("1".toList) ("2".toList) ("3".toList) none :=
    ⟨rfl, rfl, rfl, rfl⟩
  have h := bump_release_levels_correct _ _ _ _ _ hd
  refine ⟨hd, ?_, ?_⟩
  · rw [h.1]
    rfl
  · rw [h.2.1]
    rfl

/-- C2: for every version string matching the grammar, `bump_prerelease`
returns the same `major.minor.patch` text with suffix `-dev.0` when the
input had no prerelease suffix and `-dev.(N+1)` when it had `-dev.N`; the
release numbers are never changed. -/
theorem bump_prerelease_correct (v a b c : List Char) (D : Option (List Char))
    (h : VDecomp v a b c D) :
    bump_prerelease v = some (fmtPre a b c (devNext D)) ∧
    parseVersion (fmtPre a b c (devNext D)) = some (a, b, c, some (natToChars (devNext D))) :=
  ⟨bump_prerelease_of_decomp h,
   parseVersion_complete (fmtPre_decomp _ h.1 h.2.1 h.2.2.1)⟩

/-- Witness for C2 at the spec's examples. -/
theorem bump_prerelease_correct_witness :
    VDecomp ("1.2.3-dev.0".toList) ("1".toList) ("2".toList) ("3".toList) (some ("0".toList)) ∧
    bump_prerelease ("1.2.3-dev.0".toList) = some ("1.2.3-dev.1".toList) ∧
    bump_prerelease ("1.2.3".toList) = some ("1.2.3-dev.0".toList) := by
  have hd1 : VDecomp ("1.2.3-dev.0".toList) ("1".toList) ("2".toList) ("3".toList)
      (some ("0".toList)) := ⟨rfl, rfl, rfl, rfl, rfl⟩
  have hd2 : VDecomp ("1.2.3".toList) ("1".toList) ("2".toList) ("3".toList) none :=
    ⟨rfl, rfl, rfl, rfl⟩
  refine ⟨hd1, ?_, ?_⟩
  · rw [(bump_prerelease_correct _ _ _ _ _ hd1).1]
    rfl
  · rw [(bump_prerelease_correct _ _ _ _ _ hd2).1]
    rfl

/-- C8: `bump_prerelease` fails (raises `ValueError`, modelled `none`) if and
only if its input does not match the grammar; on grammar-matching input it
never raises. -/
theorem bump_prerelease_none_iff_invalid (v : List Char) :
    bump_prerelease v = none ↔ ¬ GrammarMatch v := by
  constructor
  · intro h hg
    obtain ⟨a, b, c, D, hd⟩ := hg
    rw [bump_prerelease_of_decomp hd] at h
    exact Option.noConfusion h
  · intro hg
    cases hp : parseVersion v with
    | none => simp [bump_prerelease, hp]
    | some t =>
      obtain ⟨a, b, c, D⟩ := t
      exact absurd ⟨a, b, c, D, parseVersion_sound hp⟩ hg

/-- C9: `bump_version_logic` (src/versionbump/__init__.py) and `bump_version`
(src/versionbump/versionbump/__main__.py) agree on every input string and
level; their Python bodies are textually identical. -/
theorem bump_logic_eq_bump_version :
    ∀ v l, bump_version_logic v l = bump_version v l := fun _ _ => rfl

/-- C10: grammar-validity is preserved: on grammar-matching input,
`bump_version_logic` yields a string matching the bare triple grammar (no
prerelease suffix) for every level, and `bump_prerelease` yields a string
matching the suffixed grammar. -/
theorem bumps_preserve_grammar (v a b c : List Char) (D : Option (List Char))
    (h : VDecomp v a b c D) :
    (∀ l, ∃ r, bump_version_logic v l = some r ∧
      ∃ x y z, parseVersion r = some (x, y, z, none)) ∧
    (∃ s, bump_prerelease v = some s ∧
      ∃ x y z w, parseVersion s = some (x, y, z, some w)) := by
  constructor
  · intro l
    refine ⟨_, bump_version_logic_of_decomp h l, ?_⟩
    split_ifs <;> exact ⟨_, _, _, parseVersion_complete (fmtTriple_decomp _ _ _)⟩
  · exact ⟨_, bump_prerelease_of_decomp h,
      _, _, _, _, parseVersion_complete (fmtPre_decomp _ h.1 h.2.1 h.2.2.1)⟩

/-- Witness for C10 at a concrete prerelease version. -/
theorem bumps_preserve_grammar_witness :
    VDecomp ("1.2.3-dev.4".toList) ("1".toList) ("2".toList) ("3".toList) (some ("4".toList)) ∧
    ((∀ l, ∃ r, bump_version_logic ("1.2.3-dev.4".toList) l = some r ∧
        ∃ x y z, parseVersion r = some (x, y, z, none)) ∧
      (∃ s, bump_prerelease ("1.2.3-dev.4".toList) = some s ∧
        ∃ x y z w, parseVersion s = some (x, y, z, some w))) :=
  ⟨⟨rfl, rfl, rfl, rfl, rfl⟩,
   bumps_preserve_grammar ("1.2.3-dev.4".toList) ("1".toList) ("2".toList) ("3".toList)
     (some ("4".toList)) ⟨rfl, rfl, rfl, rfl, rfl⟩⟩

/-! ## Claim C3: parse/format round-trip -/

/-- C3 counterexample: `"01.2.3"` matches the grammar (which admits leading
zeros) but `format(parse(v))` normalises it to `"1.2.3"`, so the round-trip
is not the identity on it. -/
theorem roundtrip_leading_zero_counterexample :
    GrammarMatch ("01.2.3".toList) ∧
    (parseVer ("01.2.3".toList)).map formatVer = some ("1.2.3".toList) ∧
    some ("1.2.3".toList) ≠ some ("01.2.3".toList) := by
  refine ⟨⟨"01".toList, "2".toList, "3".toList, none, rfl, rfl, rfl, rfl⟩, by decide, by decide⟩

/-- C3 amended: for every grammar-matching version string whose numeric
components carry no leading zeros (each component is `0` itself or starts
with a nonzero digit), `format(parse(v)) = v`. -/
theorem roundtrip_canonical (v a b c : List Char) (D : Option (List Char))
    (h : VDecomp v a b c D) (hca : canonicalDigits a) (hcb : canonicalDigits b)
    (hcc : canonicalDigits c) (hcd : ∀ d, D = some d → canonicalDigits d) :
    (parseVer v).map formatVer = some v := by
  have ha := h.1
  have hb := h.2.1
  have hc := h.2.2.1
  obtain ⟨hane, haall⟩ := isDigitsB_iff.mp ha
  obtain ⟨hbne, hball⟩ := isDigitsB_iff.mp hb
  obtain ⟨hcne, hcall⟩ := isDigitsB_iff.mp hc
  have hra : natToChars (digitsToNat a) = a := natToChars_digitsToNat a haall hane hca
  have hrb : natToChars (digitsToNat b) = b := natToChars_digitsToNat b hball hbne hcb
  have hrc : natToChars (digitsToNat c) = c := natToChars_digitsToNat c hcall hcne hcc
  have hp := parseVersion_complete h
  cases D with
  | none =>
    have hveq : v = a ++ '.' :: b ++ '.' :: c := h.2.2.2
    simp only [parseVer, hp, Option.map_some']
    simp only [Option.map_none', formatVer, fmtTriple, hra, hrb, hrc]
    rw [hveq]
  | some d =>
    obtain ⟨hdd, hveq⟩ := h.2.2.2
    obtain ⟨hdne, hdall⟩ := isDigitsB_iff.mp hdd
    have hrd : natToChars (digitsToNat d) = d :=
      natToChars_digitsToNat d hdall hdne (hcd d rfl)
    simp only [parseVer, hp, Option.map_some']
    simp only [formatVer, fmtTriple, hra, hrb, hrc, hrd]
    rw [hveq]
    simp [List.append_assoc]

/-- Witness for the amended C3 at `"1.2.3-dev.0"`. -/
theorem roundtrip_canonical_witness :
    (parseVer ("1.2.3-dev.0".toList)).map formatVer = some ("1.2.3-dev.0".toList) :=
  roundtrip_canonical ("1.2.3-dev.0".toList) ("1".toList) ("2".toList) ("3".toList)
    (some ("0".toList)) ⟨rfl, rfl, rfl, rfl, rfl⟩ (Or.inr (by decide)) (Or.inr (by decide))
    (Or.inr (by decide)) (fun d hd => by
      injection hd with hd
      subst hd
      exact Or.inl rfl)

/-! ## Claim theorems on the CLI orchestrator -/

/-- On a conflict-free, non-init invocation the trace is: optional default
document creation plus the version-file search, then the TOML read, then
(at most) the confirmation tail. -/
theorem mainRun_trace_shape (args : CliArgs) (w : World) (h1 : ¬ selectorCount args > 1)
    (h2 : initTruthy args = false) :
    ∃ setup : List Ev,
      (setup = [Ev.findVersionFile] ∨
        (w.files.pyproject = none ∧ setup = [Ev.createDefaultToml, Ev.findVersionFile])) ∧
      ((mainRun args w).1 = setup ++ [Ev.readToml] ∨
        ∃ nv, (mainRun args w).1 = setup ++ [Ev.readToml] ++ confirmTail w.confirm nv) := by
  simp only [mainRun, h2, Bool.false_eq_true, if_false, if_neg h1]
  cases hpy : w.files.pyproject with
  | none =>
    refine ⟨[Ev.createDefaultToml, Ev.findVersionFile], Or.inr ⟨rfl, rfl⟩, ?_⟩
    simp only [Option.isNone_none, if_true, read_version_from_toml]
    cases h3 : args.prerelease with
    | false =>
      simp only [Bool.false_eq_true, if_false]
      cases hbv : bump_version_logic ("0.1.0".toList)
          (levelChars ((args.level).getD BumpLevel.patch)) with
      | none => exact Or.inl rfl
      | some nv => exact Or.inr ⟨nv, rfl⟩
    | true =>
      simp only [if_true]
      cases hbp : bump_prerelease ("0.1.0".toList) with
      | none => exact Or.inl rfl
      | some nv => exact Or.inr ⟨nv, rfl⟩
  | some tv =>
    refine ⟨[Ev.findVersionFile], Or.inl rfl, ?_⟩
    simp only [Option.isNone_some, Bool.false_eq_true, if_false]
    cases hrd : read_version_from_toml tv with
    | none => exact Or.inl rfl
    | some old =>
      cases h3 : args.prerelease with
      | false =>
        simp only [Bool.false_eq_true, if_false]
        cases hbv : bump_version_logic old (levelChars ((args.level).getD BumpLevel.patch)) with
        | none => exact Or.inl rfl
        | some nv => exact Or.inr ⟨nv, rfl⟩
      | true =>
        simp only [if_true]
        cases hpv : parseVersion old with
        | none => exact Or.inl rfl
        | some p =>
          simp only [Option.isNone_some, Bool.false_eq_true, if_false]
          cases hbp : bump_prerelease old with
          | none => exact Or.inl rfl
          | some nv => exact Or.inr ⟨nv, rfl⟩

/-- C7: with more than one operation selector supplied, `main` reports the
conflict and exits with code 1 immediately; its trace is empty, so no file
is read, created or written and the on-disk state is untouched. -/
theorem cli_conflicting_args_no_effects (args : CliArgs) (w : World)
    (h : 2 ≤ selectorCount args) :
    mainRun args w = ([], Outcome.exitErr) ∧ applyEvs w.files [] = w.files := by
  constructor
  · unfold mainRun
    rw [if_pos (by omega : selectorCount args > 1)]
  · rfl

/-- Witness for C7: level `patch` plus `--prerelease` supplied together. -/
theorem cli_conflicting_args_no_effects_witness :
    mainRun ⟨some BumpLevel.patch, true, none⟩ ⟨⟨none, none⟩, "y".toList⟩ =
      ([], Outcome.exitErr) :=
  (cli_conflicting_args_no_effects ⟨some BumpLevel.patch, true, none⟩
    ⟨⟨none, none⟩, "y".toList⟩ (by decide)).1

/-- C4 counterexample: with the stored version `"1.2.3-beta"` (which violates
the grammar) and a default patch bump, `main` raises no error at all: it
computes `"1.2.4"`, prompts, and on `y` writes both files and exits 0 —
contradicting the claim that the process surfaces `InvalidFormat`, exits
non-zero and performs no writes. -/
theorem cli_bump_path_skips_validation :
    parseVersion ("1.2.3-beta".toList) = none ∧
    mainRun ⟨none, false, none⟩
        ⟨⟨some (TomlVal.str ("1.2.3-beta".toList)), none⟩, "y".toList⟩ =
      ([Ev.findVersionFile, Ev.readToml, Ev.prompt, Ev.writeToml ("1.2.4".toList),
        Ev.writeVersionFile ("1.2.4".toList)], Outcome.exitOk) := by
  constructor
  · decide
  · decide

/-- C4 amended: only the `--prerelease` (and `--init`) paths validate; there,
a grammar-violating stored version makes `main` exit 1 after only the setup
and read steps, leaving the files untouched. -/
theorem cli_prerelease_invalid_exits (args : CliArgs) (w : World) (tv : TomlVal)
    (s : List Char) (h1 : selectorCount args ≤ 1) (h2 : initTruthy args = false)
    (h3 : args.prerelease = true) (h4 : w.files.pyproject = some tv)
    (h5 : read_version_from_toml tv = some s) (h6 : parseVersion s = none) :
    mainRun args w = ([Ev.findVersionFile, Ev.readToml], Outcome.exitErr) ∧
    applyEvs w.files [Ev.findVersionFile, Ev.readToml] = w.files := by
  constructor
  · simp only [mainRun, h2, h3, h4, Bool.false_eq_true, if_false]
    rw [if_neg (by omega : ¬ selectorCount args > 1)]
    simp [h5, h6]
  · rfl

/-- Witness for the amended C4. -/
theorem cli_prerelease_invalid_exits_witness :
    mainRun ⟨none, true, none⟩
        ⟨⟨some (TomlVal.str ("1.2.3-beta".toList)), none⟩, "y".toList⟩ =
      ([Ev.findVersionFile, Ev.readToml], Outcome.exitErr) :=
  (cli_prerelease_invalid_exits ⟨none, true, none⟩
    ⟨⟨some (TomlVal.str ("1.2.3-beta".toList)), none⟩, "y".toList⟩
    (TomlVal.str ("1.2.3-beta".toList)) ("1.2.3-beta".toList)
    (by decide) (by decide) rfl rfl rfl (by decide)).1

/-- C5 counterexample: `--init 2.0.0` writes both files and exits 0 without
ever prompting — contradicting the claim that the orchestrator never writes
before an affirmative confirmation, "including the --init path". -/
theorem cli_init_writes_without_prompt :
    mainRun ⟨none, false, some ("2.0.0".toList)⟩
        ⟨⟨some (TomlVal.str ("1.2.3".toList)), none⟩, "".toList⟩ =
      ([Ev.findVersionFile, Ev.writeToml ("2.0.0".toList),
        Ev.writeVersionFile ("2.0.0".toList)], Outcome.exitOk) ∧
    Ev.prompt ∉ [Ev.findVersionFile, Ev.writeToml ("2.0.0".toList),
      Ev.writeVersionFile ("2.0.0".toList)] := by
  constructor
  · decide
  · decide

/-- C5 amended: on the bump and prerelease paths (no `--init`), the version
writes happen only after the prompt, and a non-affirmative answer means no
version write at all.  (The `--init` path writes without prompting, and a
missing metadata document is created with `0.1.0` before the prompt; those
carve-outs are exactly what the counterexample shows.) -/
theorem cli_version_writes_need_confirmation (args : CliArgs) (w : World)
    (h1 : selectorCount args ≤ 1) (h2 : initTruthy args = false) :
    (normConfirm w.confirm ≠ "y".toList → noVersionWrites (mainRun args w).1 = true) ∧
    noWritesBeforePrompt (mainRun args w).1 = true := by
  obtain ⟨setup, hsetup, htr⟩ := mainRun_trace_shape args w (by omega) h2
  constructor
  · intro hne
    rcases htr with htr | ⟨nv, htr⟩ <;> rw [htr]
    · rcases hsetup with hs | ⟨-, hs⟩ <;> subst hs <;> rfl
    · unfold confirmTail
      rw [if_neg hne]
      rcases hsetup with hs | ⟨-, hs⟩ <;> subst hs <;> rfl
  · rcases htr with htr | ⟨nv, htr⟩ <;> rw [htr]
    · rcases hsetup with hs | ⟨-, hs⟩ <;> subst hs <;> rfl
    · unfold confirmTail
      by_cases hconf : normConfirm w.confirm = "y".toList
      · rw [if_pos hconf]
        rcases hsetup with hs | ⟨-, hs⟩ <;> subst hs <;> rfl
      · rw [if_neg hconf]
        rcases hsetup with hs | ⟨-, hs⟩ <;> subst hs <;> rfl

/-- Witness for the amended C5: a declined patch bump performs no version
write and nothing is written before the prompt. -/
theorem cli_version_writes_need_confirmation_witness :
    (normConfirm ("n".toList) ≠ "y".toList →
      noVersionWrites (mainRun ⟨some BumpLevel.patch, false, none⟩
        ⟨⟨some (TomlVal.str ("1.2.3".toList)), none⟩, "n".toList⟩).1 = true) ∧
    noWritesBeforePrompt (mainRun ⟨some BumpLevel.patch, false, none⟩
      ⟨⟨some (TomlVal.str ("1.2.3".toList)), none⟩, "n".toList⟩).1 = true :=
  cli_version_writes_need_confirmation ⟨some BumpLevel.patch, false, none⟩
    ⟨⟨some (TomlVal.str ("1.2.3".toList)), none⟩, "n".toList⟩ (by decide) (by decide)

/-- C6 counterexample: a declined patch bump in a directory with no metadata
document still leaves a newly created default document behind: the run
reaches the prompt, is declined with exit 0, yet `pyproject.toml` went from
absent to present with version `0.1.0`. -/
theorem cli_decline_creates_default_toml :
    mainRun ⟨none, false, none⟩ ⟨⟨none, none⟩, "n".toList⟩ =
      ([Ev.createDefaultToml, Ev.findVersionFile, Ev.readToml, Ev.prompt], Outcome.exitOk) ∧
    Ev.prompt ∈ [Ev.createDefaultToml, Ev.findVersionFile, Ev.readToml, Ev.prompt] ∧
    applyEvs ⟨none, none⟩ [Ev.createDefaultToml, Ev.findVersionFile, Ev.readToml, Ev.prompt] ≠
      (⟨none, none⟩ : Files) := by
  refine ⟨by decide, by decide, by decide⟩

/-- C6 amended: when the metadata document already exists, a run that is
declined at the prompt (or that errors out before it) leaves both on-disk
stores exactly as they were. -/
theorem cli_decline_preserves_existing (args : CliArgs) (w : World) (tv : TomlVal)
    (h1 : selectorCount args ≤ 1) (h2 : initTruthy args = false)
    (h3 : w.files.pyproject = some tv) (h4 : normConfirm w.confirm ≠ "y".toList) :
    applyEvs w.files (mainRun args w).1 = w.files := by
  obtain ⟨setup, hsetup, htr⟩ := mainRun_trace_shape args w (by omega) h2
  rcases hsetup with hs | ⟨hnone, -⟩
  · subst hs
    rcases htr with htr | ⟨nv, htr⟩ <;> rw [htr]
    · rfl
    · unfold confirmTail
      rw [if_neg h4]
      rfl
  · rw [h3] at hnone
    exact Option.noConfusion hnone

/-- Witness for the amended C6. -/
theorem cli_decline_preserves_existing_witness :
    applyEvs (⟨some (TomlVal.str ("1.2.3".toList)), none⟩ : Files)
      (mainRun ⟨none, false, none⟩
        ⟨⟨some (TomlVal.str ("1.2.3".toList)), none⟩, "n".toList⟩).1 =
      (⟨some (TomlVal.str ("1.2.3".toList)), none⟩ : Files) :=
  cli_decline_preserves_existing ⟨none, false, none⟩
    ⟨⟨some (TomlVal.str ("1.2.3".toList)), none⟩, "n".toList⟩
    (TomlVal.str ("1.2.3".toList)) (by decide) (by decide) rfl (by decide)
